import Mathlib

/-!
Verification of the phosphor terminal-UI runtime core.

The Rust sources are embedded shallowly: u8/u16/u32 machine integers become
`Nat` with explicit `% 2^8 / % 2^16 / % 2^32` reductions at every operation
where Rust (release-mode) wrapping can occur, and every Rust operation that
can panic (slice indexing, `%`/`/` by zero) is embedded as an
`Option`-returning function, `none` standing for the panic.
-/

namespace Phosphor

/-- One screen cell, from `src/buffer.rs` (`struct Cell`): a single character.
The snapshot of `buffer.rs` has no style field (the `TODO` in the source). -/
structure Cell where
  symbol : Char
deriving DecidableEq, Repr

/-- Default cell is a space, from `impl Default for Cell`. -/
instance : Inhabited Cell := ⟨⟨' '⟩⟩

/-- One changed cell between two frames, from `struct Change` in `src/buffer.rs`. -/
structure Change where
  x : Nat
  y : Nat
  cell : Cell
deriving DecidableEq, Repr

/-- A 2D grid of cells, from `struct Buffer` in `src/buffer.rs`.
`width` and `height` are u16 values, `content` the row-major cell vector. -/
structure Buffer where
  width : Nat
  height : Nat
  content : List Cell
deriving DecidableEq, Repr

/-- `Buffer::new` from `src/buffer.rs`: `vec![Cell::default(); (width * height) as usize]`.
The product `width * height` is computed in u16 and hence wraps modulo 2^16
before the cast to usize. -/
def Buffer.new (width height : Nat) : Buffer :=
  { width := width, height := height
    content := List.replicate ((width * height) % 65536) default }

/-- `Buffer::index`: `((y * self.width) + x) as usize`, u16 arithmetic, so both
the product and the sum wrap modulo 2^16. -/
def Buffer.index (b : Buffer) (x y : Nat) : Nat :=
  ((y * b.width) % 65536 + x) % 65536

/-- `Buffer::set`: returns unchanged buffer for out-of-range coordinates;
otherwise writes through `self.content[idx]`, which panics (here `none`)
when the computed index is outside the content vector. -/
def Buffer.set (b : Buffer) (x y : Nat) (symbol : Char) : Option Buffer :=
  if x ≥ b.width ∨ y ≥ b.height then some b
  else
    let idx := b.index x y
    if idx < b.content.length then
      some { b with content := b.content.set idx ⟨symbol⟩ }
    else none

/-- The change pushed by `Buffer::diff` for linear index `i`:
`x: (i as u16) % self.width, y: (i as u16) / self.width`. The cast to u16
wraps `i` modulo 2^16; `%`/`/` by a zero width panics (`none`). -/
def changeAt (w i : Nat) (cell : Cell) : Option Change :=
  if w = 0 then none
  else some { x := (i % 65536) % w, y := (i % 65536) / w, cell := cell }

/-- The equal-dimension loop of `Buffer::diff`: walk the zipped contents,
pushing a change for every index whose cells differ. -/
def diffRun (w : Nat) : Nat → List Cell → List Cell → Option (List Change)
  | _, [], _ => some []
  | _, _ :: _, [] => some []
  | i, n :: ns, o :: os =>
    if n = o then diffRun w (i + 1) ns os
    else do
      let ch ← changeAt w i n
      let rest ← diffRun w (i + 1) ns os
      some (ch :: rest)

/-- The dimension-mismatch branch of `Buffer::diff`: every cell of `self`
becomes a change. -/
def fullRepaint (w : Nat) : Nat → List Cell → Option (List Change)
  | _, [] => some []
  | i, c :: cs => do
    let ch ← changeAt w i c
    let rest ← fullRepaint w (i + 1) cs
    some (ch :: rest)

/-- `Buffer::diff` from `src/buffer.rs`. -/
def Buffer.diff (a b : Buffer) : Option (List Change) :=
  if a.width ≠ b.width ∨ a.height ≠ b.height then fullRepaint a.width 0 a.content
  else diffRun a.width 0 a.content b.content

/-- Spec-side formulation (from the claim wording): the change at row-major
index `i` carries coordinates `x = i mod width`, `y = i div width` in exact
arithmetic. -/
def rowMajorChange (w i : Nat) (cell : Cell) : Change :=
  { x := i % w, y := i / w, cell := cell }

/-- Spec-side formulation of the equal-dimension diff (from the claim
wording): exactly one change per row-major index at which the cells differ,
in increasing index order. -/
def specDiffSame (a b : Buffer) : List Change :=
  ((a.content.zip b.content).enum).filterMap fun p =>
    if p.2.1 = p.2.2 then none else some (rowMajorChange a.width p.1 p.2.1)

/-- Spec-side formulation of the dimension-mismatch diff (from the claim
wording): every cell of `a` as a change, in row-major order. -/
def specDiffFull (a : Buffer) : List Change :=
  (a.content.enum).map fun p => rowMajorChange a.width p.1 p.2

/-! Layout, from `src/layout.rs`. -/

/-- Split direction, from `enum Direction`. -/
inductive Direction where
  | Horizontal
  | Vertical
deriving DecidableEq, Repr

/-- Layout constraints, from `enum Constraint`. Payloads are u16 (u32 for
the ratio), carried as `Nat`. -/
inductive Constraint where
  | Fill
  | Percentage (p : Nat)
  | Length (l : Nat)
  | Ratio (num den : Nat)
  | Min (n : Nat)
  | Max (n : Nat)
deriving DecidableEq, Repr

/-- A rectangle, from `struct Rect` in `src/layout.rs`; all fields u16. -/
structure Rect where
  x : Nat
  y : Nat
  width : Nat
  height : Nat
deriving DecidableEq, Repr

/-- The resolved size of a percentage constraint: `(p * total_space) / 100`
in u16 arithmetic, so the product wraps modulo 2^16. -/
def pctSize (p total : Nat) : Nat := ((p * total) % 65536) / 100

/-- The resolved size of a ratio constraint:
`(total_space as u32 * n / d) as u16`: the u32 product wraps modulo 2^32,
u32 division by zero panics (`none`), and the cast truncates modulo 2^16. -/
def ratioSize (total num den : Nat) : Option Nat :=
  if den = 0 then none
  else some ((((total * num) % 4294967296) / den) % 65536)

/-- Pass 1 of `Layout::split`: accumulate `used_space` (u16, wrapping) over
the non-flexible constraints and count the flexible ones (u16, wrapping). -/
def scanConstraints (total : Nat) : List Constraint → Nat → Nat → Option (Nat × Nat)
  | [], used, flex => some (used, flex)
  | c :: cs, used, flex =>
    match c with
    | .Length l => scanConstraints total cs ((used + l) % 65536) flex
    | .Percentage p => scanConstraints total cs ((used + pctSize p total) % 65536) flex
    | .Ratio n d => do
      let s ← ratioSize total n d
      scanConstraints total cs ((used + s) % 65536) flex
    | _ => scanConstraints total cs used ((flex + 1) % 65536)

/-- Pass 3 size resolution of `Layout::split` for one constraint. -/
def resolveSize (total flexSize : Nat) : Constraint → Option Nat
  | .Length l => some l
  | .Percentage p => some (pctSize p total)
  | .Fill => some flexSize
  | .Ratio n d => ratioSize total n d
  | .Min n => some (Nat.max flexSize n)
  | .Max n => some (Nat.min flexSize n)

/-- Pass 3 of `Layout::split`: build the sub-rects, accumulating the offset
(u16, wrapping) and adding it to the origin (u16, wrapping). -/
def buildRects (dir : Direction) (rect : Rect) (total flexSize : Nat) :
    List Constraint → Nat → Option (List Rect)
  | [], _ => some []
  | c :: cs, offset => do
    let size ← resolveSize total flexSize c
    let sub := match dir with
      | .Horizontal => Rect.mk ((rect.x + offset) % 65536) rect.y size rect.height
      | .Vertical => Rect.mk rect.x ((rect.y + offset) % 65536) rect.width size
    let rest ← buildRects dir rect total flexSize cs ((offset + size) % 65536)
    some (sub :: rest)

/-- The layout engine, from `struct Layout` in `src/layout.rs`. -/
structure Layout where
  direction : Direction
  constraints : List Constraint

/-- `Layout::split` from `src/layout.rs`: `flex_size` is
`total_space.saturating_sub(used_space) / flex_count` when the (wrapped)
flexible count is positive, else 0; `Nat` subtraction is saturating. -/
def Layout.split (l : Layout) (rect : Rect) : Option (List Rect) := do
  let total := match l.direction with
    | .Horizontal => rect.width
    | .Vertical => rect.height
  let p ← scanConstraints total l.constraints 0 0
  let flexSize := if p.2 > 0 then (total - p.1) / p.2 else 0
  buildRects l.direction rect total flexSize l.constraints 0

/-- Whether a constraint is flexible (Fill, Min, Max), per the claim wording. -/
def Constraint.isFlex : Constraint → Bool
  | .Fill => true
  | .Min _ => true
  | .Max _ => true
  | _ => false

/-- Whether a ratio constraint has a nonzero denominator (vacuously true for
the other constraints). -/
def Constraint.denOk : Constraint → Bool
  | .Ratio _ d => d ≠ 0
  | _ => true

/-- Spec-side resolved size of a non-flexible constraint in exact (claim)
arithmetic: Length→n, Percentage→⌊p·total/100⌋, Ratio→⌊total·num/den⌋;
flexible constraints contribute 0 to the fixed sum. -/
def claimFixedSize (total : Nat) : Constraint → Nat
  | .Length l => l
  | .Percentage p => p * total / 100
  | .Ratio n d => total * n / d
  | _ => 0

/-- Spec-side resolved size of any constraint in exact (claim) arithmetic. -/
def claimSize (total unit : Nat) : Constraint → Nat
  | .Fill => unit
  | .Min n => Nat.max unit n
  | .Max n => Nat.min unit n
  | c => claimFixedSize total c

/-- Spec-side sub-rect constructor: the split axis gets position `pos` and
extent `size`; the orthogonal dimension is unchanged. -/
def mkSub (dir : Direction) (rect : Rect) (pos size : Nat) : Rect :=
  match dir with
  | .Horizontal => Rect.mk pos rect.y size rect.height
  | .Vertical => Rect.mk rect.x pos rect.width size

/-- Spec-side origin coordinate along the split axis. -/
def dirStart (dir : Direction) (rect : Rect) : Nat :=
  match dir with
  | .Horizontal => rect.x
  | .Vertical => rect.y

/-- Spec-side extent along the split axis. -/
def dirTotal (dir : Direction) (rect : Rect) : Nat :=
  match dir with
  | .Horizontal => rect.width
  | .Vertical => rect.height

/-- The split as the claim words it, in exact arithmetic: fixed sum over
non-flexible constraints, `flex_unit = (total − fixed_sum) / flex_count`
(0 if no flexible constraint), sizes resolved in order, offsets accumulated
from the rect origin. -/
def claimSplit (l : Layout) (rect : Rect) : List Rect :=
  let total := dirTotal l.direction rect
  let fixed := (l.constraints.map (claimFixedSize total)).sum
  let cnt := (l.constraints.filter Constraint.isFlex).length
  let unit := if cnt = 0 then 0 else (total - fixed) / cnt
  let sizes := l.constraints.map (claimSize total unit)
  (List.range l.constraints.length).map fun i =>
    mkSub l.direction rect (dirStart l.direction rect + (sizes.take i).sum)
      (sizes.getD i 0)

/-- The resolved size of a non-flexible constraint in the wrapping (u16/u32)
arithmetic the code actually performs; flexible constraints contribute 0.
Total function: division by a zero ratio denominator follows the `Nat`
convention and is excluded by `denOk` hypotheses wherever this is used. -/
def wrapFixedSize (total : Nat) : Constraint → Nat
  | .Length l => l
  | .Percentage p => pctSize p total
  | .Ratio n d => (((total * n) % 4294967296) / d) % 65536
  | _ => 0

/-- The resolved size of any constraint in wrapping arithmetic. -/
def wrapSize (total unit : Nat) : Constraint → Nat
  | .Fill => unit
  | .Min n => Nat.max unit n
  | .Max n => Nat.min unit n
  | c => wrapFixedSize total c

/-- The split as the (amended) claim words it, with every u16 sum, product
and cast reduced modulo 2^16 exactly where the code wraps. -/
def wrapSplit (l : Layout) (rect : Rect) : List Rect :=
  let total := dirTotal l.direction rect
  let fixed := ((l.constraints.map (wrapFixedSize total)).sum) % 65536
  let cnt := (l.constraints.filter Constraint.isFlex).length % 65536
  let unit := if cnt = 0 then 0 else (total - fixed) / cnt
  let sizes := l.constraints.map (wrapSize total unit)
  (List.range l.constraints.length).map fun i =>
    mkSub l.direction rect ((dirStart l.direction rect + (sizes.take i).sum) % 65536)
      (sizes.getD i 0)

/-! Colors and hex parsing, from `src/style.rs`. -/

/-- Terminal colors, from `enum Color` in `src/style.rs`. -/
inductive Color where
  | Reset
  | Black
  | Red
  | Green
  | Yellow
  | Blue
  | Magenta
  | Cyan
  | White
  | BrightBlack
  | BrightRed
  | BrightGreen
  | BrightYellow
  | BrightBlue
  | BrightMagenta
  | BrightCyan
  | BrightWhite
  | Indexed (i : Nat)
  | Rgb (r g b : Nat)
deriving DecidableEq, Repr

/-- The value of a hexadecimal digit character, as Rust's char-to-digit
conversion used by `from_str_radix` with radix 16. -/
def hexDigitVal (c : Char) : Option Nat :=
  if 48 ≤ c.toNat ∧ c.toNat ≤ 57 then some (c.toNat - 48)
  else if 97 ≤ c.toNat ∧ c.toNat ≤ 102 then some (c.toNat - 87)
  else if 65 ≤ c.toNat ∧ c.toNat ≤ 70 then some (c.toNat - 55)
  else none

/-- Digit accumulation of `u8::from_str_radix(…, 16)` on the positive path:
every character must be a hex digit and the checked `acc * 16 + d` must stay
within u8 (≤ 255). -/
def radixAccumPos (acc : Nat) : List Char → Option Nat
  | [] => some acc
  | c :: cs => do
    let d ← hexDigitVal c
    let v := acc * 16 + d
    if v ≤ 255 then radixAccumPos v cs else none

/-- Digit accumulation of `u8::from_str_radix(…, 16)` after a minus sign:
the checked subtraction `acc - d` from an accumulator that starts (and hence
stays) at 0 succeeds only while every digit is 0. -/
def radixAccumNeg : List Char → Option Nat
  | [] => some 0
  | c :: cs => do
    let d ← hexDigitVal c
    if d = 0 then radixAccumNeg cs else none

/-- `u8::from_str_radix(s, 16)` from Rust core, embedded for the `Ok`/`Err`
outcome: an empty string fails; a leading `+` or `-` is accepted and must be
followed by at least one digit. -/
def fromStrRadix16U8 : List Char → Option Nat
  | [] => none
  | c :: cs =>
    if c = '+' then if cs = [] then none else radixAccumPos 0 cs
    else if c = '-' then if cs = [] then none else radixAccumNeg cs
    else radixAccumPos 0 (c :: cs)

/-- `hex.strip_prefix("#").unwrap_or(hex)`: drop one leading `#` if present. -/
def stripHash : List Char → List Char
  | '#' :: rest => rest
  | s => s

/-- `Color::from_hex` from `src/style.rs`, on the character list of an ASCII
input string (for ASCII input, Rust byte indices coincide with character
indices; the embedding covers that domain). -/
def fromHex (s : List Char) : Option Color :=
  let s := stripHash s
  if s.length ≠ 6 then none
  else do
    let r ← fromStrRadix16U8 (s.take 2)
    let g ← fromStrRadix16U8 ((s.drop 2).take 2)
    let b ← fromStrRadix16U8 ((s.drop 4).take 2)
    some (Color.Rgb r g b)

/-- Spec-side parse as the claim words it: exactly six hexadecimal digits
after the optional `#`, the three pairs giving r, g, b. -/
def claimSixHex (s : List Char) : Option Color :=
  let s := stripHash s
  match s with
  | [c1, c2, c3, c4, c5, c6] =>
    match hexDigitVal c1, hexDigitVal c2, hexDigitVal c3, hexDigitVal c4,
        hexDigitVal c5, hexDigitVal c6 with
    | some d1, some d2, some d3, some d4, some d5, some d6 =>
      some (Color.Rgb (16 * d1 + d2) (16 * d3 + d4) (16 * d5 + d6))
    | _, _, _, _, _, _ => none
  | _ => none

/-- Spec-side value of one 2-character pair under the amended claim: two hex
digits give `16·d₁+d₂`; `+` followed by a hex digit gives that digit; `-0`
gives 0; everything else fails. -/
def claimPairVal (c1 c2 : Char) : Option Nat :=
  match hexDigitVal c1, hexDigitVal c2 with
  | some d1, some d2 => some (16 * d1 + d2)
  | _, _ =>
    if c1 = '+' then hexDigitVal c2
    else if c1 = '-' ∧ hexDigitVal c2 = some 0 then some 0
    else none

/-- The amended claim's description of `from_hex`: after stripping an
optional `#`, exactly six characters whose three pairs each parse per
`claimPairVal`. -/
def claimFromHex (s : List Char) : Option Color :=
  match stripHash s with
  | [c1, c2, c3, c4, c5, c6] =>
    match claimPairVal c1 c2, claimPairVal c3 c4, claimPairVal c5 c6 with
    | some r, some g, some b => some (Color.Rgb r g b)
    | _, _, _ => none
  | _ => none

/-! Input decoding, from `src/input.rs`. -/

/-- Mouse action kinds, from `enum MouseKind`. -/
inductive MouseKind where
  | LeftClick
  | RightClick
  | MiddleClick
  | ScrollUp
  | ScrollDown
  | Other
deriving DecidableEq, Repr

/-- A mouse event, from `struct MouseEvent`; coordinates are u16. -/
structure MouseEvent where
  x : Nat
  y : Nat
  kind : MouseKind
deriving DecidableEq, Repr

/-- Key identifiers, from `enum KeyCode`. -/
inductive KeyCode where
  | Char (c : Char)
  | Enter
  | Backspace
  | Esc
  | Left
  | Right
  | Up
  | Down
  | Tab
  | Delete
  | Home
  | End
  | PageUp
  | PageDown
  | F (n : Nat)
  | Null
deriving DecidableEq, Repr

/-- A key press, from `struct KeyEvent`; the modifier bitflags are a u8. -/
structure KeyEvent where
  code : KeyCode
  modifiers : Nat
deriving DecidableEq, Repr

/-- `KeyEvent::new`: the given code with no modifiers. -/
def KeyEvent.new (code : KeyCode) : KeyEvent := ⟨code, 0⟩

/-- Input events, from `enum Event`. -/
inductive Event where
  | Key (k : KeyEvent)
  | Mouse (m : MouseEvent)
  | Resize (w h : Nat)
deriving DecidableEq, Repr

/-- `utf8_char_width` from `src/input.rs`: sequence width from the lead
byte's high bits (0 = invalid lead byte). -/
def utf8CharWidth (b : Nat) : Nat :=
  if b &&& 128 = 0 then 1
  else if b &&& 224 = 192 then 2
  else if b &&& 240 = 224 then 3
  else if b &&& 248 = 240 then 4
  else 0

/-- Whether a byte is a UTF-8 continuation byte (0x80–0xBF). -/
def isCont (b : Nat) : Bool := 128 ≤ b ∧ b ≤ 191

/-- UTF-8 validation and decoding of one whole sequence, as
`std::str::from_utf8` applied to exactly these bytes followed by taking the
first char: the RFC 3629 ranges, rejecting overlong forms, surrogates and
values above 0x10FFFF. Returns the scalar value. -/
def utf8DecodeOne : List Nat → Option Nat
  | [b] => if b ≤ 127 then some b else none
  | [b1, b2] =>
    if 194 ≤ b1 ∧ b1 ≤ 223 ∧ isCont b2 then
      some ((b1 - 192) * 64 + (b2 - 128))
    else none
  | [b1, b2, b3] =>
    if ((b1 = 224 ∧ 160 ≤ b2 ∧ b2 ≤ 191) ∨
        (225 ≤ b1 ∧ b1 ≤ 236 ∧ isCont b2) ∨
        (b1 = 237 ∧ 128 ≤ b2 ∧ b2 ≤ 159) ∨
        (238 ≤ b1 ∧ b1 ≤ 239 ∧ isCont b2)) ∧ isCont b3 then
      some ((b1 - 224) * 4096 + (b2 - 128) * 64 + (b3 - 128))
    else none
  | [b1, b2, b3, b4] =>
    if ((b1 = 240 ∧ 144 ≤ b2 ∧ b2 ≤ 191) ∨
        (241 ≤ b1 ∧ b1 ≤ 243 ∧ isCont b2) ∨
        (b1 = 244 ∧ 128 ≤ b2 ∧ b2 ≤ 143)) ∧ isCont b3 ∧ isCont b4 then
      some ((b1 - 240) * 262144 + (b2 - 128) * 4096 + (b3 - 128) * 64 + (b4 - 128))
    else none
  | _ => none

/-- The mouse-kind selection of `Parser::parse`: match on
`cb.saturating_sub(32)`. -/
def mouseKindOf (n : Nat) : MouseKind :=
  if n = 0 then .LeftClick
  else if n = 1 then .MiddleClick
  else if n = 2 then .RightClick
  else if n = 64 then .ScrollUp
  else if n = 65 then .ScrollDown
  else .Other

/-- One iteration of the decoding loop of `Parser::parse` on the byte queue:
`none` when the loop breaks (empty queue or incomplete prefix), otherwise
the events it pushes in this iteration and the remaining queue. Bytes are
u8 values carried as `Nat`; `Nat` subtraction is the code's saturating
subtraction. -/
def parseStep : List Nat → Option (List Event × List Nat)
  | [] => none
  | b :: rest =>
    if b = 13 then some ([.Key (KeyEvent.new .Enter)], rest)
    else if b = 27 then
      match rest with
      | [] => none
      | b1 :: rest2 =>
        if b1 = 91 ∧ rest2 = [] then none
        else if b1 = 91 then
          match rest2 with
          | [] => none
          | b2 :: rest3 =>
            if b2 = 65 then some ([.Key (KeyEvent.new .Up)], rest3)
            else if b2 = 77 then
              match rest3 with
              | cb :: cx :: cy :: rest4 =>
                some ([.Mouse ⟨cx - 33, cy - 33, mouseKindOf (cb - 32)⟩], rest4)
              | _ => none
            else some ([.Key (KeyEvent.new .Esc)], b1 :: rest2)
        else some ([.Key (KeyEvent.new .Esc)], b1 :: rest2)
    else
      let width := utf8CharWidth b
      if width = 0 then some ([], rest)
      else if width ≤ (b :: rest).length then
        match utf8DecodeOne ((b :: rest).take width) with
        | some n => some ([.Key (KeyEvent.new (.Char (Char.ofNat n)))], (b :: rest).drop width)
        | none => some ([], (b :: rest).drop width)
      else none

/-- The decoding loop of `Parser::parse`, run with explicit fuel: each
fueled step applies `parseStep` until it reports a break. The loop's
termination is the subject of claim C10: fuel equal to the queue length
always suffices. -/
def parseLoop : Nat → List Nat → List Event × List Nat
  | 0, buf => ([], buf)
  | fuel + 1, buf =>
    match parseStep buf with
    | none => ([], buf)
    | some (es, buf2) =>
      let r := parseLoop fuel buf2
      (es ++ r.1, r.2)

/-- The parser state, from `struct Parser`: the FIFO queue of undecoded
bytes. -/
structure Parser where
  buffer : List Nat
deriving DecidableEq, Repr

/-- `Parser::parse`: append the incoming bytes to the queue, then run the
decoding loop to completion; returns the events and the updated parser. -/
def Parser.parse (p : Parser) (bytes : List Nat) : List Event × Parser :=
  let buf := p.buffer ++ bytes
  let r := parseLoop buf.length buf
  (r.1, ⟨r.2⟩)

/-- `Parser::has_pending_state`: whether residual bytes remain. -/
def Parser.hasPendingState (p : Parser) : Bool :=
  !p.buffer.isEmpty

/-- `Parser::finish_incomplete`: emit one Esc event when the first residual
byte is ESC, and clear the whole queue in every case. -/
def Parser.finishIncomplete (p : Parser) : List Event × Parser :=
  match p.buffer with
  | [] => ([], ⟨[]⟩)
  | b :: _ =>
    if b = 27 then ([.Key (KeyEvent.new .Esc)], ⟨[]⟩)
    else ([], ⟨[]⟩)

/-! Terminal lifecycle, from `src/terminal.rs`. -/

/-- The escape sequences `Terminal` writes, as byte lists:
hide cursor `ESC [ ? 2 5 l`. -/
def hideCursorSeq : List Nat := [27, 91, 63, 50, 53, 108]

/-- Show cursor `ESC [ ? 2 5 h`. -/
def showCursorSeq : List Nat := [27, 91, 63, 50, 53, 104]

/-- Mouse capture on `ESC [ ? 1 0 0 0 h`. -/
def mouseOnSeq : List Nat := [27, 91, 63, 49, 48, 48, 48, 104]

/-- Mouse capture off `ESC [ ? 1 0 0 0 l`. -/
def mouseOffSeq : List Nat := [27, 91, 63, 49, 48, 48, 48, 108]

/-- Alternate screen on `ESC [ ? 1 0 4 9 h`. -/
def altOnSeq : List Nat := [27, 91, 63, 49, 48, 52, 57, 104]

/-- Alternate screen off `ESC [ ? 1 0 4 9 l`. -/
def altOffSeq : List Nat := [27, 91, 63, 49, 48, 52, 57, 108]

/-- A backend call made during the Terminal lifecycle, for the call trace
(mirroring what the MockSystem of `src/terminal.rs` records). -/
inductive SysCall where
  | openTty
  | closeTty (fd : Nat)
  | enableRaw (fd : Nat)
  | disableRaw (fd : Nat)
  | writeBytes (fd : Nat) (bytes : List Nat)
deriving DecidableEq, Repr

/-- A `System` backend (the trait of `src/terminal.rs`), embedded as the
pure outcome of each operation the constructor and destructor use. `ε` is
the backend's error type, `τ` its opaque termios token. -/
structure SystemM (ε τ : Type) where
  openTty : Except ε Nat
  enableRaw : Nat → Except ε τ
  writeTty : Nat → List Nat → Except ε Nat
  disableRaw : Nat → τ → Except ε Unit
  closeTty : Nat → Except ε Unit

/-- The Terminal value, from `struct Terminal`: the backend file descriptor
and the captured prior configuration (None until `enable_raw` succeeds). -/
structure TerminalState (τ : Type) where
  fd : Nat
  originalTermios : Option τ
deriving DecidableEq, Repr

/-- The calls `impl Drop for Terminal` makes, in order: the three restore
writes (results ignored), `disable_raw` only when a prior configuration was
captured (its error only logged), and `close_tty`. -/
def dropCalls {τ : Type} (t : TerminalState τ) : List SysCall :=
  [.writeBytes t.fd mouseOffSeq, .writeBytes t.fd altOffSeq, .writeBytes t.fd showCursorSeq]
  ++ (match t.originalTermios with
      | some _ => [SysCall.disableRaw t.fd]
      | none => [])
  ++ [.closeTty t.fd]

/-- `Terminal::new_with_system` from `src/terminal.rs`, with the call trace
it produces. On the success path no Drop runs (the value is returned); on
every failure path after `open_tty` succeeds, the partially built Terminal
local is dropped, so `dropCalls` runs. -/
def newWithSystem {ε τ : Type} (sys : SystemM ε τ) :
    Except ε (TerminalState τ) × List SysCall :=
  match sys.openTty with
  | .error e => (.error e, [.openTty])
  | .ok fd =>
    match sys.enableRaw fd with
    | .error e =>
      (.error e, [.openTty, .enableRaw fd] ++ dropCalls (TerminalState.mk fd (none : Option τ)))
    | .ok termios =>
      let t : TerminalState τ := ⟨fd, some termios⟩
      match sys.writeTty fd hideCursorSeq with
      | .error e =>
        (.error e, [.openTty, .enableRaw fd, .writeBytes fd hideCursorSeq] ++ dropCalls t)
      | .ok _ =>
        match sys.writeTty fd mouseOnSeq with
        | .error e =>
          (.error e,
            [.openTty, .enableRaw fd, .writeBytes fd hideCursorSeq,
              .writeBytes fd mouseOnSeq] ++ dropCalls t)
        | .ok _ =>
          match sys.writeTty fd altOnSeq with
          | .error e =>
            (.error e,
              [.openTty, .enableRaw fd, .writeBytes fd hideCursorSeq,
                .writeBytes fd mouseOnSeq, .writeBytes fd altOnSeq] ++ dropCalls t)
          | .ok _ =>
            (.ok t,
              [.openTty, .enableRaw fd, .writeBytes fd hideCursorSeq,
                .writeBytes fd mouseOnSeq, .writeBytes fd altOnSeq])

/-- A backend whose `enable_raw` fails (the MockSystem of `src/terminal.rs`
with `fail_enable_raw` set): error code 7, fd 100, everything else
succeeding. -/
def mockFailRaw : SystemM Nat Unit :=
  { openTty := .ok 100
    enableRaw := fun _ => .error 7
    writeTty := fun _ _ => .ok 0
    disableRaw := fun _ _ => .ok ()
    closeTty := fun _ => .ok () }

/-! Renderer, from `src/renderer.rs`. -/

/-- One `terminal.write` call made by `Renderer::render`, kept symbolically:
the full clear, the 1-indexed cursor move, the style prologue and the cell
symbol. The snapshot's `renderer.rs` reads `change.cell.style` while the
snapshot's `buffer.rs` `Cell` has no style field yet (its TODO); the style
write is therefore recorded as carrying the whole cell. -/
inductive TermWrite where
  | clearScreen
  | moveCursor (row col : Nat)
  | styleSeq (cell : Cell)
  | putSymbol (c : Char)
deriving DecidableEq, Repr

/-- `Renderer::render` from `src/renderer.rs`: clear on dimension change,
diff against the held buffer, three writes per change, replace the held
buffer with `next`. The held buffer is the explicit state; `none` models a
diff panic. The cursor-move row/col are u16 sums `y + 1`, `x + 1`. -/
def render (cur next : Buffer) : Option (List TermWrite × Buffer) := do
  let clearWrites :=
    if next.width ≠ cur.width ∨ next.height ≠ cur.height then [TermWrite.clearScreen] else []
  let d ← next.diff cur
  let changeWrites := d.flatMap fun ch =>
    [TermWrite.moveCursor ((ch.y + 1) % 65536) ((ch.x + 1) % 65536),
      TermWrite.styleSeq ch.cell, TermWrite.putSymbol ch.cell.symbol]
  some (clearWrites ++ changeWrites, next)

/-! Helper lemmas about the buffer diff. -/

/-- For a positive width and an in-u16-range index, the pushed change is the
claim's row-major change. -/
theorem changeAt_eq (w i : Nat) (c : Cell) (hw : 0 < w) (hi : i < 65536) :
    changeAt w i c = some (rowMajorChange w i c) := by
  unfold changeAt rowMajorChange
  rw [if_neg (by omega), Nat.mod_eq_of_lt hi]

/-- Diffing identical contents produces no change. -/
theorem diffRun_self (w : Nat) : ∀ (i : Nat) (l : List Cell), diffRun w i l l = some [] := by
  intro i l
  induction l generalizing i with
  | nil => rfl
  | cons c cs ih => simp [diffRun, ih]

/-- Diffing a buffer against itself is empty. -/
theorem Buffer.diff_self (a : Buffer) : a.diff a = some [] := by
  unfold Buffer.diff
  rw [if_neg (by simp)]
  exact diffRun_self a.width 0 a.content

/-- The equal-dimension diff loop computes the claim's filterMap over the
zipped, enumerated contents. -/
theorem diffRun_spec (w : Nat) (hw : 0 < w) :
    ∀ (l1 l2 : List Cell) (i : Nat), i + min l1.length l2.length ≤ 65536 →
    diffRun w i l1 l2 = some (((l1.zip l2).enumFrom i).filterMap fun p =>
      if p.2.1 = p.2.2 then none else some (rowMajorChange w p.1 p.2.1)) := by
  intro l1
  induction l1 with
  | nil => intro l2 i h; cases l2 <;> simp [diffRun]
  | cons n ns ih =>
    intro l2 i h
    cases l2 with
    | nil => simp [diffRun]
    | cons o os =>
      have hb : i + 1 + min ns.length os.length ≤ 65536 := by
        simp only [List.length_cons, Nat.succ_min_succ] at h
        omega
      by_cases hno : n = o
      · subst hno
        simp only [diffRun, if_pos rfl, List.zip_cons_cons, List.enumFrom_cons,
          List.filterMap_cons, if_pos rfl]
        exact ih os (i + 1) hb
      · simp only [diffRun, if_neg hno, List.zip_cons_cons, List.enumFrom_cons,
          List.filterMap_cons]
        rw [changeAt_eq w i n hw (by omega), ih os (i + 1) hb]
        simp [hno]

/-- The dimension-mismatch repaint computes the claim's map over the
enumerated contents. -/
theorem fullRepaint_spec (w : Nat) (hw : 0 < w) :
    ∀ (l : List Cell) (i : Nat), i + l.length ≤ 65536 →
    fullRepaint w i l = some ((l.enumFrom i).map fun p => rowMajorChange w p.1 p.2) := by
  intro l
  induction l with
  | nil => intro i h; simp [fullRepaint]
  | cons c cs ih =>
    intro i h
    simp only [fullRepaint, List.enumFrom_cons, List.map_cons]
    rw [changeAt_eq w i c hw (by simp at h; omega), ih (i + 1) (by simp at h ⊢; omega)]
    rfl

/-- Claim C2: for equal-dimension buffers the diff lists exactly the
row-major indices whose cells differ, in increasing order, with coordinates
`i mod width`, `i div width` and the cell of `a`; `a.diff a` is empty; for
differing dimensions the diff lists every cell of `a` in row-major order.
The side conditions keep the embedded u16 index cast and the `% width` the
code performs away from their panic/wrap region; buffers built by
`Buffer::new` and `Buffer::set` always satisfy them. -/
theorem C2_diff_characterization :
    (∀ a b : Buffer, a.width = b.width → a.height = b.height →
      a.content.length ≤ 65536 → (a.width = 0 → a.content = []) →
      a.diff b = some (specDiffSame a b)) ∧
    (∀ a : Buffer, a.diff a = some []) ∧
    (∀ a b : Buffer, ¬(a.width = b.width ∧ a.height = b.height) →
      a.content.length ≤ 65536 → (a.width = 0 → a.content = []) →
      a.diff b = some (specDiffFull a)) := by
  refine ⟨?_, Buffer.diff_self, ?_⟩
  · intro a b hw hh hlen hzero
    unfold Buffer.diff
    rw [if_neg (by simp [hw, hh])]
    rcases Nat.eq_zero_or_pos a.width with h0 | hpos
    · rw [hzero h0]
      simp [diffRun, specDiffSame, hzero h0]
    · rw [diffRun_spec a.width hpos a.content b.content 0 (by omega)]
      unfold specDiffSame
      rw [List.enum_eq_enumFrom]
  · intro a b hne hlen hzero
    unfold Buffer.diff
    rw [if_pos (by tauto)]
    rcases Nat.eq_zero_or_pos a.width with h0 | hpos
    · rw [hzero h0]
      simp [fullRepaint, specDiffFull, hzero h0]
    · rw [fullRepaint_spec a.width hpos a.content 0 (by omega)]
      unfold specDiffFull
      rw [List.enum_eq_enumFrom]

/-- Witness for C2 at concrete buffers: the diff of a 3×3 buffer with
an `X` at (1,1) against a blank 3×3 buffer, and against a blank 2×2
buffer. -/
theorem C2_witness :
    Buffer.diff ⟨3, 3, [⟨' '⟩, ⟨' '⟩, ⟨' '⟩, ⟨' '⟩, ⟨'X'⟩, ⟨' '⟩, ⟨' '⟩, ⟨' '⟩, ⟨' '⟩]⟩
        (Buffer.new 3 3) = some [⟨1, 1, ⟨'X'⟩⟩] ∧
    Buffer.diff ⟨2, 2, [⟨'A'⟩, ⟨' '⟩, ⟨' '⟩, ⟨' '⟩]⟩ (Buffer.new 3 3) =
      some [⟨0, 0, ⟨'A'⟩⟩, ⟨1, 0, ⟨' '⟩⟩, ⟨0, 1, ⟨' '⟩⟩, ⟨1, 1, ⟨' '⟩⟩] := by
  constructor
  · exact (C2_diff_characterization.1
      ⟨3, 3, [⟨' '⟩, ⟨' '⟩, ⟨' '⟩, ⟨' '⟩, ⟨'X'⟩, ⟨' '⟩, ⟨' '⟩, ⟨' '⟩, ⟨' '⟩]⟩
      (Buffer.new 3 3) (by decide) (by decide) (by decide) (by decide)).trans (by decide)
  · exact (C2_diff_characterization.2.2
      ⟨2, 2, [⟨'A'⟩, ⟨' '⟩, ⟨' '⟩, ⟨' '⟩]⟩ (Buffer.new 3 3)
      (by decide) (by decide) (by decide)).trans (by decide)

/-- Counterexample to claim C7 as stated: `Buffer::new(256, 256)` computes
`width * height` in u16, which wraps to 0, so the cell sequence has length
0, not 256 × 256 = 65536. -/
theorem C7_counterexample :
    (Buffer.new 256 256).content.length = 0 ∧ (256 : Nat) * 256 ≠ 0 := by
  constructor
  · show (List.replicate ((256 * 256) % 65536) (default : Cell)).length = 0
    rfl
  · decide

/-- Amended claim C7: `Buffer::new(width, height)` produces a cell sequence
of length `(width × height) mod 2^16` (the u16 product), `set` — whenever it
returns rather than panics — preserves width, height and content length
(also at out-of-range coordinates, where it is the identity), and the
addressing index is `(y × width + x) mod 2^16`. -/
theorem C7_length_invariant :
    (∀ w h : Nat, (Buffer.new w h).width = w ∧ (Buffer.new w h).height = h ∧
      (Buffer.new w h).content.length = (w * h) % 65536) ∧
    (∀ (b : Buffer) (x y : Nat) (c : Char) (b2 : Buffer), b.set x y c = some b2 →
      b2.width = b.width ∧ b2.height = b.height ∧
      b2.content.length = b.content.length) ∧
    (∀ (b : Buffer) (x y : Nat), b.index x y = (y * b.width + x) % 65536) := by
  refine ⟨?_, ?_, ?_⟩
  · intro w h
    exact ⟨rfl, rfl, List.length_replicate _ _⟩
  · intro b x y c b2 hset
    unfold Buffer.set at hset
    dsimp only at hset
    split at hset
    · cases hset; exact ⟨rfl, rfl, rfl⟩
    · split at hset
      · cases hset
        exact ⟨rfl, rfl, List.length_set b.content _ _⟩
      · cases hset
  · intro b x y
    unfold Buffer.index
    omega

/-- Witness for C7 at concrete input: setting (1,1) in a 3×3 buffer keeps
the dimensions and the content length 9. -/
theorem C7_witness :
    (Buffer.new 3 3).set 1 1 'X' =
      some ⟨3, 3, [⟨' '⟩, ⟨' '⟩, ⟨' '⟩, ⟨' '⟩, ⟨'X'⟩, ⟨' '⟩, ⟨' '⟩, ⟨' '⟩, ⟨' '⟩]⟩ ∧
    (Buffer.mk 3 3 [⟨' '⟩, ⟨' '⟩, ⟨' '⟩, ⟨' '⟩, ⟨'X'⟩, ⟨' '⟩, ⟨' '⟩, ⟨' '⟩, ⟨' '⟩]).content.length =
      (Buffer.new 3 3).content.length := by
  refine ⟨by decide, ?_⟩
  exact (C7_length_invariant.2.1 (Buffer.new 3 3) 1 1 'X' _ (by decide)).2.2

/-- Rendering a buffer against an identical held buffer performs no device
write and leaves the held buffer unchanged. -/
theorem render_self (next : Buffer) : render next next = some ([], next) := by
  unfold render
  rw [if_neg (by simp), Buffer.diff_self]
  rfl

/-- Claim C6: rendering is idempotent — after a render of `next` has
succeeded (so the held buffer is `next`), a second render of the same
buffer produces an empty diff and performs zero device writes. -/
theorem C6_render_idempotent :
    ∀ (cur next : Buffer) (w : List TermWrite) (s : Buffer),
      render cur next = some (w, s) → render s next = some ([], next) := by
  intro cur next w s h
  have hs : s = next := by
    unfold render at h
    cases hd : next.diff cur with
    | none => rw [hd] at h; cases h
    | some d =>
      rw [hd] at h
      simp only [Option.bind_eq_bind, Option.some_bind] at h
      cases h
      rfl
  rw [hs]
  exact render_self next

/-- Witness for C6 at concrete input: after rendering a 2×2 buffer holding
`Z`, rendering it again writes nothing. -/
theorem C6_witness :
    render (Buffer.new 2 2) ⟨2, 2, [⟨'Z'⟩, ⟨' '⟩, ⟨' '⟩, ⟨' '⟩]⟩ =
      some ([.moveCursor 1 1, .styleSeq ⟨'Z'⟩, .putSymbol 'Z'],
        ⟨2, 2, [⟨'Z'⟩, ⟨' '⟩, ⟨' '⟩, ⟨' '⟩]⟩) ∧
    render ⟨2, 2, [⟨'Z'⟩, ⟨' '⟩, ⟨' '⟩, ⟨' '⟩]⟩ ⟨2, 2, [⟨'Z'⟩, ⟨' '⟩, ⟨' '⟩, ⟨' '⟩]⟩ =
      some ([], ⟨2, 2, [⟨'Z'⟩, ⟨' '⟩, ⟨' '⟩, ⟨' '⟩]⟩) := by
  refine ⟨by decide, ?_⟩
  exact C6_render_idempotent (Buffer.new 2 2) ⟨2, 2, [⟨'Z'⟩, ⟨' '⟩, ⟨' '⟩, ⟨' '⟩]⟩
    [.moveCursor 1 1, .styleSeq ⟨'Z'⟩, .putSymbol 'Z']
    ⟨2, 2, [⟨'Z'⟩, ⟨' '⟩, ⟨' '⟩, ⟨' '⟩]⟩ (by decide)

/-! Helper lemmas about the layout splitter. -/

/-- With every ratio denominator nonzero, pass 1 computes the wrapped fixed
sum and the wrapped flexible count. -/
theorem scanConstraints_spec (total : Nat) :
    ∀ (cs : List Constraint) (used flex : Nat),
      (∀ c ∈ cs, c.denOk = true) → used < 65536 → flex < 65536 →
      scanConstraints total cs used flex =
        some ((used + (cs.map (wrapFixedSize total)).sum) % 65536,
          (flex + (cs.filter Constraint.isFlex).length) % 65536) := by
  intro cs
  induction cs with
  | nil =>
    intro used flex _ hu hf
    simp [scanConstraints, Nat.mod_eq_of_lt hu, Nat.mod_eq_of_lt hf]
  | cons c cs ih =>
    intro used flex hok hu hf
    have hcs : ∀ c ∈ cs, c.denOk = true := fun x hx => hok x (List.mem_cons_of_mem c hx)
    cases c with
    | Fill =>
      rw [show scanConstraints total (.Fill :: cs) used flex =
        scanConstraints total cs used ((flex + 1) % 65536) from rfl]
      rw [ih used ((flex + 1) % 65536) hcs hu (Nat.mod_lt _ (by omega))]
      simp only [List.map_cons, List.sum_cons, wrapFixedSize, List.filter_cons,
        Constraint.isFlex, Bool.false_eq_true, if_true, if_false, List.length_cons]
      simp only [Option.some.injEq, Prod.mk.injEq]
      constructor <;> first | omega | trivial
    | Min n =>
      rw [show scanConstraints total (.Min n :: cs) used flex =
        scanConstraints total cs used ((flex + 1) % 65536) from rfl]
      rw [ih used ((flex + 1) % 65536) hcs hu (Nat.mod_lt _ (by omega))]
      simp only [List.map_cons, List.sum_cons, wrapFixedSize, List.filter_cons,
        Constraint.isFlex, Bool.false_eq_true, if_true, if_false, List.length_cons]
      simp only [Option.some.injEq, Prod.mk.injEq]
      constructor <;> first | omega | trivial
    | Max n =>
      rw [show scanConstraints total (.Max n :: cs) used flex =
        scanConstraints total cs used ((flex + 1) % 65536) from rfl]
      rw [ih used ((flex + 1) % 65536) hcs hu (Nat.mod_lt _ (by omega))]
      simp only [List.map_cons, List.sum_cons, wrapFixedSize, List.filter_cons,
        Constraint.isFlex, Bool.false_eq_true, if_true, if_false, List.length_cons]
      simp only [Option.some.injEq, Prod.mk.injEq]
      constructor <;> first | omega | trivial
    | Length l =>
      rw [show scanConstraints total (.Length l :: cs) used flex =
        scanConstraints total cs ((used + l) % 65536) flex from rfl]
      rw [ih ((used + l) % 65536) flex hcs (Nat.mod_lt _ (by omega)) hf]
      simp only [List.map_cons, List.sum_cons, wrapFixedSize, List.filter_cons,
        Constraint.isFlex, Bool.false_eq_true, if_true, if_false, List.length_cons]
      simp only [Option.some.injEq, Prod.mk.injEq]
      constructor <;> first | omega | trivial
    | Percentage p =>
      rw [show scanConstraints total (.Percentage p :: cs) used flex =
        scanConstraints total cs ((used + pctSize p total) % 65536) flex from rfl]
      rw [ih ((used + pctSize p total) % 65536) flex hcs (Nat.mod_lt _ (by omega)) hf]
      simp only [List.map_cons, List.sum_cons, wrapFixedSize, List.filter_cons,
        Constraint.isFlex, Bool.false_eq_true, if_true, if_false, List.length_cons]
      simp only [Option.some.injEq, Prod.mk.injEq]
      constructor <;> first | omega | trivial
    | Ratio n d =>
      have hd : d ≠ 0 := by
        have := hok (.Ratio n d) (List.mem_cons_self _ _)
        simpa [Constraint.denOk, decide_eq_true_eq] using this
      rw [show scanConstraints total (.Ratio n d :: cs) used flex =
        (ratioSize total n d).bind
          (fun s => scanConstraints total cs ((used + s) % 65536) flex) from rfl]
      rw [show ratioSize total n d =
        some ((((total * n) % 4294967296) / d) % 65536) from by
          unfold ratioSize; rw [if_neg hd]]
      rw [Option.some_bind]
      rw [ih _ flex hcs (Nat.mod_lt _ (by omega)) hf]
      simp only [List.map_cons, List.sum_cons, wrapFixedSize, List.filter_cons,
        Constraint.isFlex, Bool.false_eq_true, if_true, if_false, List.length_cons]
      simp only [Option.some.injEq, Prod.mk.injEq]
      constructor <;> first | omega | trivial

/-- With a nonzero ratio denominator, pass 3 resolution succeeds with the
wrapped size. -/
theorem resolveSize_eq (total unit : Nat) (c : Constraint) (h : c.denOk = true) :
    resolveSize total unit c = some (wrapSize total unit c) := by
  cases c with
  | Ratio n d =>
    have hd : d ≠ 0 := by simpa [Constraint.denOk, decide_eq_true_eq] using h
    simp [resolveSize, ratioSize, wrapSize, wrapFixedSize, hd]
  | _ => rfl

/-- Pass 3 builds, for each constraint index, the sub-rect at the wrapped
accumulated offset with the wrapped resolved size, the orthogonal dimension
unchanged. -/
theorem buildRects_spec (dir : Direction) (rect : Rect) (total unit : Nat) :
    ∀ (cs : List Constraint) (offset : Nat), (∀ c ∈ cs, c.denOk = true) →
    buildRects dir rect total unit cs offset =
      some ((List.range cs.length).map fun i =>
        mkSub dir rect
          ((dirStart dir rect + offset +
            ((cs.take i).map (wrapSize total unit)).sum) % 65536)
          (wrapSize total unit (cs.getD i .Fill))) := by
  intro cs
  induction cs with
  | nil => intro offset _; simp [buildRects]
  | cons c cs ih =>
    intro offset hok
    have hcs : ∀ x ∈ cs, x.denOk = true := fun x hx => hok x (List.mem_cons_of_mem c hx)
    have hc : c.denOk = true := hok c (List.mem_cons_self _ _)
    simp only [buildRects, resolveSize_eq total unit c hc, Option.bind_eq_bind,
      Option.some_bind]
    rw [ih ((offset + wrapSize total unit c) % 65536) hcs]
    simp only [Option.bind_eq_bind, Option.some_bind]
    rw [List.length_cons, List.range_succ_eq_map, List.map_cons, List.map_map]
    refine congrArg some ?_
    refine congrArg₂ List.cons ?_ ?_
    · cases dir <;>
        simp [mkSub, dirStart]
    · apply List.map_congr_left
      intro i _
      cases dir <;>
        (simp only [Function.comp_apply, Nat.succ_eq_add_one, List.take_succ_cons,
          List.map_cons, List.sum_cons, List.getD_cons_succ, mkSub, dirStart,
          Rect.mk.injEq, true_and, and_true]
         omega)

/-- Claim C3 as stated, in exact (non-wrapping) arithmetic, versus the
code: `claimSplit` is the claim's algorithm verbatim. Counterexample: with
the claim's arithmetic, splitting a width-700 rect with `Percentage(100)`
yields a width-700 segment, but the code's u16 product `100 * 700` wraps
modulo 2^16 and the split returns width 44. -/
theorem C3_counterexample :
    Layout.split ⟨.Horizontal, [.Percentage 100]⟩ ⟨0, 0, 700, 1⟩ =
      some [⟨0, 0, 44, 1⟩] ∧
    claimSplit ⟨.Horizontal, [.Percentage 100]⟩ ⟨0, 0, 700, 1⟩ = [⟨0, 0, 700, 1⟩] ∧
    (Rect.mk 0 0 44 1) ≠ (Rect.mk 0 0 700 1) := by
  refine ⟨by decide, by decide, by decide⟩

/-- Amended claim C3: for every direction, rect and constraint list whose
ratio denominators are nonzero, `Layout::split` returns one sub-rect per
constraint, in order, the orthogonal dimension unchanged, whose sizes and
accumulated offsets follow the claim's formulas with every u16 sum and
product (and the u32 ratio product and its u16 cast) reduced modulo the
machine width, the flex remainder dropped; a ratio with denominator zero
panics instead. -/
theorem C3_split_wrapped (l : Layout) (rect : Rect)
    (hok : ∀ c ∈ l.constraints, c.denOk = true) :
    l.split rect = some (wrapSplit l rect) := by
  have htot : (match l.direction with
      | .Horizontal => rect.width
      | .Vertical => rect.height) = dirTotal l.direction rect := by
    cases l.direction <;> rfl
  have hunit : (if ((l.constraints.filter Constraint.isFlex).length % 65536) > 0 then
      (dirTotal l.direction rect -
        ((l.constraints.map (wrapFixedSize (dirTotal l.direction rect))).sum % 65536)) /
        ((l.constraints.filter Constraint.isFlex).length % 65536)
    else 0) =
    (if ((l.constraints.filter Constraint.isFlex).length % 65536) = 0 then 0 else
      (dirTotal l.direction rect -
        ((l.constraints.map (wrapFixedSize (dirTotal l.direction rect))).sum % 65536)) /
        ((l.constraints.filter Constraint.isFlex).length % 65536)) := by
    rcases Nat.eq_zero_or_pos ((l.constraints.filter Constraint.isFlex).length % 65536)
      with h | h
    · rw [h]; rfl
    · rw [if_pos h, if_neg (by omega)]
  unfold Layout.split wrapSplit
  dsimp only
  rw [htot]
  rw [scanConstraints_spec (dirTotal l.direction rect) l.constraints 0 0 hok
    (by omega) (by omega)]
  simp only [Option.bind_eq_bind, Option.some_bind, Nat.zero_add]
  rw [buildRects_spec l.direction rect (dirTotal l.direction rect) _ l.constraints 0 hok]
  rw [hunit]
  refine congrArg some ?_
  apply List.map_congr_left
  intro i hi
  rw [List.mem_range] at hi
  have hsz : (List.map (wrapSize (dirTotal l.direction rect)
      (if ((l.constraints.filter Constraint.isFlex).length % 65536) = 0 then 0 else
        (dirTotal l.direction rect -
          ((l.constraints.map (wrapFixedSize (dirTotal l.direction rect))).sum % 65536)) /
          ((l.constraints.filter Constraint.isFlex).length % 65536)))
      l.constraints).getD i 0 =
      wrapSize (dirTotal l.direction rect)
        (if ((l.constraints.filter Constraint.isFlex).length % 65536) = 0 then 0 else
          (dirTotal l.direction rect -
            ((l.constraints.map (wrapFixedSize (dirTotal l.direction rect))).sum % 65536)) /
            ((l.constraints.filter Constraint.isFlex).length % 65536))
        (l.constraints.getD i .Fill) := by
    rw [List.getD_eq_getElem _ _ (by simpa using hi), List.getD_eq_getElem _ _ hi,
      List.getElem_map]
  rw [hsz, ← List.map_take]
  congr 2

/-- Witness for C3 at the claim's example: splitting extent 10 with
`{Length(2), Fill, Fill}` yields sizes `[2, 4, 4]` at accumulated
offsets. -/
theorem C3_witness :
    Layout.split ⟨.Vertical, [.Length 2, .Fill, .Fill]⟩ ⟨0, 0, 10, 10⟩ =
      some [⟨0, 0, 10, 2⟩, ⟨0, 2, 10, 4⟩, ⟨0, 6, 10, 4⟩] := by
  exact (C3_split_wrapped ⟨.Vertical, [.Length 2, .Fill, .Fill]⟩ ⟨0, 0, 10, 10⟩
    (by decide)).trans (by decide)

/-! Helper lemmas about hex parsing. -/

/-- A hex digit value is at most 15. -/
theorem hexDigitVal_le15 (c : Char) (d : Nat) (h : hexDigitVal c = some d) : d ≤ 15 := by
  unfold hexDigitVal at h
  split at h
  · cases h; omega
  · split at h
    · cases h; omega
    · split at h
      · cases h; omega
      · cases h

/-- On a 2-character string, `u8::from_str_radix(…, 16)` computes exactly
the amended claim's pair value. -/
theorem fromStrRadix16U8_pair (c1 c2 : Char) :
    fromStrRadix16U8 [c1, c2] = claimPairVal c1 c2 := by
  have hplus : hexDigitVal '+' = none := by decide
  have hminus : hexDigitVal '-' = none := by decide
  by_cases h1 : c1 = '+'
  · subst h1
    cases h2 : hexDigitVal c2 with
    | none => simp [fromStrRadix16U8, claimPairVal, radixAccumPos, hplus, h2]
    | some d =>
      have hd := hexDigitVal_le15 c2 d h2
      have h255 : d ≤ 255 := by omega
      simp [fromStrRadix16U8, claimPairVal, radixAccumPos, hplus, h2, h255]
  · by_cases h1m : c1 = '-'
    · subst h1m
      cases h2 : hexDigitVal c2 with
      | none => simp [fromStrRadix16U8, claimPairVal, radixAccumNeg, hminus, h2]
      | some d =>
        by_cases hd0 : d = 0
        · subst hd0
          simp [fromStrRadix16U8, claimPairVal, radixAccumNeg, hminus, h2]
        · simp [fromStrRadix16U8, claimPairVal, radixAccumNeg, hminus, h2, hd0]
    · cases hc1 : hexDigitVal c1 with
      | none => simp [fromStrRadix16U8, claimPairVal, radixAccumPos, h1, h1m, hc1]
      | some d1 =>
        have hd1 := hexDigitVal_le15 c1 d1 hc1
        have h255a : 0 * 16 + d1 ≤ 255 := by omega
        cases hc2 : hexDigitVal c2 with
        | none =>
          simp [fromStrRadix16U8, claimPairVal, radixAccumPos, h1, h1m, hc1, hc2, h255a]
        | some d2 =>
          have hd2 := hexDigitVal_le15 c2 d2 hc2
          have h255b : d1 * 16 + d2 ≤ 255 := by omega
          simp [fromStrRadix16U8, claimPairVal, radixAccumPos, h1, h1m, hc1, hc2,
            h255a, h255b]
          try omega

/-- Counterexample to claim C8 as stated: `u8::from_str_radix` accepts a
leading `+`, so `from_hex("+12345")` succeeds with `Rgb(1, 0x23, 0x45)`
although the input is not six hexadecimal digits. -/
theorem C8_counterexample :
    fromHex (String.toList "+12345") = some (Color.Rgb 1 35 69) ∧
    claimSixHex (String.toList "+12345") = none := by
  constructor
  · rfl
  · rfl

/-- Amended claim C8: for every (ASCII) input string, `from_hex` returns
`Some(Rgb(r,g,b))` exactly when, after removing an optional leading `#`,
the string has exactly six characters and each of the three 2-character
pairs is accepted by `u8::from_str_radix(_, 16)`: two hex digits valuing
`16·d₁+d₂`, or `+` followed by one hex digit valuing that digit, or `-0`
valuing 0; every other input fails. -/
theorem C8_from_hex_amended : ∀ s : List Char, fromHex s = claimFromHex s := by
  intro s
  unfold fromHex claimFromHex
  generalize stripHash s = t
  rcases t with _ | ⟨a1, _ | ⟨a2, _ | ⟨a3, _ | ⟨a4, _ | ⟨a5, _ | ⟨a6, _ | ⟨a7, rest⟩⟩⟩⟩⟩⟩⟩
  · rfl
  · rfl
  · rfl
  · rfl
  · rfl
  · rfl
  · rw [if_neg (by simp)]
    dsimp only
    simp only [List.take_succ_cons, List.take_zero, List.drop_succ_cons, List.drop_zero]
    rw [fromStrRadix16U8_pair a1 a2, fromStrRadix16U8_pair a3 a4,
      fromStrRadix16U8_pair a5 a6]
    cases claimPairVal a1 a2 with
    | none => rfl
    | some r =>
      cases claimPairVal a3 a4 with
      | none => rfl
      | some g =>
        cases claimPairVal a5 a6 with
        | none => rfl
        | some b => rfl
  · rw [if_pos (by simp)]

/-! Parser and terminal claims. -/

/-- Claim C4: decoding is invariant under fragmentation of the escape
sequence — feeding ESC then `[A` in two calls yields the same single Up
event as one call with `ESC [ A`, and pending state holds exactly between
the two calls. -/
theorem C4_fragmentation_invariance :
    Parser.parse ⟨[]⟩ [27] = ([], ⟨[27]⟩) ∧
    Parser.parse ⟨[27]⟩ [91, 65] = ([.Key (KeyEvent.new .Up)], ⟨[]⟩) ∧
    Parser.parse ⟨[]⟩ [27, 91, 65] = ([.Key (KeyEvent.new .Up)], ⟨[]⟩) ∧
    Parser.hasPendingState ⟨[]⟩ = false ∧
    Parser.hasPendingState ⟨[27]⟩ = true ∧
    (Parser.parse ⟨[]⟩ [27]).2.hasPendingState = true ∧
    (Parser.parse ⟨[27]⟩ [91, 65]).2.hasPendingState = false := by
  refine ⟨rfl, rfl, rfl, rfl, rfl, rfl, rfl⟩

/-- Claim C5: on a queue headed by ESC `[` M, fewer than 6 buffered bytes
make the parser stop and wait; with 6 or more it consumes the 3-byte header
and 3 data bytes and emits exactly one Mouse event with kind selected by
`button − 32` and saturating-subtracted coordinates `x − 33`, `y − 33`;
in particular `ESC [ M 32 43 38` decodes to a LeftClick at (10, 5). -/
theorem C5_mouse_decode :
    (∀ (cb cx cy : Nat) (rest : List Nat),
      parseStep (27 :: 91 :: 77 :: cb :: cx :: cy :: rest) =
        some ([.Mouse ⟨cx - 33, cy - 33, mouseKindOf (cb - 32)⟩], rest)) ∧
    (parseStep [27, 91, 77] = none ∧
      (∀ cb : Nat, parseStep [27, 91, 77, cb] = none) ∧
      (∀ cb cx : Nat, parseStep [27, 91, 77, cb, cx] = none)) ∧
    (mouseKindOf 0 = .LeftClick ∧ mouseKindOf 1 = .MiddleClick ∧
      mouseKindOf 2 = .RightClick ∧ mouseKindOf 64 = .ScrollUp ∧
      mouseKindOf 65 = .ScrollDown ∧
      (∀ n : Nat, n ≠ 0 → n ≠ 1 → n ≠ 2 → n ≠ 64 → n ≠ 65 →
        mouseKindOf n = .Other)) ∧
    Parser.parse ⟨[]⟩ [27, 91, 77, 32, 43, 38] =
      ([.Mouse ⟨10, 5, .LeftClick⟩], ⟨[]⟩) := by
  refine ⟨?_, ⟨rfl, fun cb => rfl, fun cb cx => rfl⟩,
    ⟨rfl, rfl, rfl, rfl, rfl, ?_⟩, by decide⟩
  · intro cb cx cy rest
    rfl
  · intro n h0 h1 h2 h64 h65
    simp [mouseKindOf, h0, h1, h2, h64, h65]

/-- Witness for C5 at concrete inputs: button offset 3 maps to Other, and
the fragment `ESC [ M cb` stops the parser. -/
theorem C5_witness :
    mouseKindOf 3 = MouseKind.Other ∧ parseStep [27, 91, 77, 40] = none :=
  ⟨C5_mouse_decode.2.2.1.2.2.2.2.2 3 (by decide) (by decide) (by decide)
      (by decide) (by decide),
    C5_mouse_decode.2.1.2.1 40⟩

/-- Claim C9: `finish_incomplete` emits exactly one Esc event when the
first residual byte is ESC and no event otherwise, and always clears the
whole residual queue, so no pending state remains; a parser holding only
ESC yields exactly one Esc event. -/
theorem C9_finish_incomplete :
    (∀ p : Parser,
      p.finishIncomplete.2 = ⟨[]⟩ ∧
      p.finishIncomplete.2.hasPendingState = false ∧
      p.finishIncomplete.1 =
        (if p.buffer.head? = some 27 then [.Key (KeyEvent.new .Esc)] else [])) ∧
    Parser.finishIncomplete ⟨[27]⟩ = ([.Key (KeyEvent.new .Esc)], ⟨[]⟩) := by
  constructor
  · intro p
    rcases p with ⟨buf⟩
    cases buf with
    | nil => exact ⟨rfl, rfl, rfl⟩
    | cons b rest =>
      refine ⟨?_, ?_, ?_⟩
      · simp only [Parser.finishIncomplete]
        split <;> rfl
      · simp only [Parser.finishIncomplete]
        split <;> rfl
      · simp only [Parser.finishIncomplete, List.head?_cons, Option.some.injEq]
        by_cases hb : b = 27
        · subst hb
          simp
        · simp [hb]
  · rfl

/-- Every successful parse step strictly shortens the byte queue: one byte
for Enter, the Esc fallback or invalid-width resynchronisation, three for
an arrow, six for a mouse report, the UTF-8 width for a character. -/
theorem parseStep_dec :
    ∀ (buf : List Nat) (es : List Event) (buf2 : List Nat),
      parseStep buf = some (es, buf2) → buf2.length < buf.length := by
  intro buf es buf2 h
  cases buf with
  | nil => exact absurd h (by simp [parseStep])
  | cons b rest =>
    unfold parseStep at h
    dsimp only at h
    repeat' split at h
    all_goals first
      | exact Option.noConfusion h
      | (cases h
         simp only [List.length_drop, List.length_cons]
         omega)

/-- Fuel equal to the queue length always suffices for the decoding loop:
any larger fuel computes the same result. -/
theorem parseLoop_stable :
    ∀ (fuel : Nat) (buf : List Nat), buf.length ≤ fuel →
      parseLoop fuel buf = parseLoop buf.length buf := by
  intro fuel
  induction fuel using Nat.strong_induction_on with
  | _ fuel ih =>
    intro buf h
    cases hs : parseStep buf with
    | none =>
      cases fuel with
      | zero =>
        have h0 : buf.length = 0 := by omega
        rw [h0]
      | succ g =>
        cases hl : buf.length with
        | zero => simp [parseLoop, hs]
        | succ m => simp [parseLoop, hs]
    | some r =>
      obtain ⟨es, buf2⟩ := r
      have hdec := parseStep_dec buf es buf2 hs
      obtain ⟨g, hg⟩ : ∃ g, fuel = g + 1 := ⟨fuel - 1, by omega⟩
      obtain ⟨m, hm⟩ : ∃ m, buf.length = m + 1 := ⟨buf.length - 1, by omega⟩
      subst hg
      rw [hm]
      simp only [parseLoop, hs]
      rw [ih g (by omega) buf2 (by omega), ih m (by omega) buf2 (by omega)]

/-- Claim C10: `Parser::parse` terminates on every input — each loop
iteration that does not break removes at least one byte from the front of
the queue, so the iteration count is bounded by the number of buffered
bytes, and running the loop with that much fuel is already stable. -/
theorem C10_parse_terminates :
    (∀ (buf : List Nat) (es : List Event) (buf2 : List Nat),
        parseStep buf = some (es, buf2) → buf2.length < buf.length) ∧
    (∀ (fuel : Nat) (buf : List Nat), buf.length ≤ fuel →
        parseLoop fuel buf = parseLoop buf.length buf) :=
  ⟨parseStep_dec, parseLoop_stable⟩

/-- Witness for C10 at concrete input: decoding Enter removes the byte, and
extra fuel changes nothing. -/
theorem C10_witness :
    ([] : List Nat).length < [13].length ∧ parseLoop 5 [13] = parseLoop 1 [13] :=
  ⟨C10_parse_terminates.1 [13] [.Key (KeyEvent.new .Enter)] [] (by decide),
    C10_parse_terminates.2 5 [13] (by decide)⟩

/-- Counterexample to claim C1 as stated: with a backend whose `enable_raw`
fails, construction does return the error, but the partially built Terminal
is dropped, and Drop issues the mouse-off, alternate-screen-off and
cursor-show restore writes although those setup steps never executed. -/
theorem C1_counterexample :
    (newWithSystem mockFailRaw).1 = Except.error 7 ∧
    SysCall.writeBytes 100 mouseOffSeq ∈ (newWithSystem mockFailRaw).2 ∧
    SysCall.writeBytes 100 altOffSeq ∈ (newWithSystem mockFailRaw).2 ∧
    SysCall.writeBytes 100 showCursorSeq ∈ (newWithSystem mockFailRaw).2 := by
  refine ⟨rfl, by decide, by decide, by decide⟩

/-- Amended claim C1: when `open_tty` succeeds and `enable_raw` fails,
`new_with_system` returns exactly that error; the hide-cursor,
mouse-reporting and alternate-screen setup steps are never performed and
`disable_raw` is never called (no prior configuration was captured); the
Drop of the partially built value does run, issuing the three restore
writes and closing the tty. -/
theorem C1_enable_raw_failure {ε τ : Type} (sys : SystemM ε τ) (fd : Nat) (e : ε)
    (hopen : sys.openTty = .ok fd) (hraw : sys.enableRaw fd = .error e) :
    newWithSystem sys =
      (.error e, [.openTty, .enableRaw fd, .writeBytes fd mouseOffSeq,
        .writeBytes fd altOffSeq, .writeBytes fd showCursorSeq, .closeTty fd]) ∧
    SysCall.writeBytes fd hideCursorSeq ∉ (newWithSystem sys).2 ∧
    SysCall.writeBytes fd mouseOnSeq ∉ (newWithSystem sys).2 ∧
    SysCall.writeBytes fd altOnSeq ∉ (newWithSystem sys).2 ∧
    ∀ f : Nat, SysCall.disableRaw f ∉ (newWithSystem sys).2 := by
  have htrace : newWithSystem sys =
      (.error e, [.openTty, .enableRaw fd, .writeBytes fd mouseOffSeq,
        .writeBytes fd altOffSeq, .writeBytes fd showCursorSeq, .closeTty fd]) := by
    simp only [newWithSystem, hopen, hraw]
    rfl
  refine ⟨htrace, ?_, ?_, ?_, ?_⟩
  · rw [htrace]
    simp [hideCursorSeq, mouseOffSeq, altOffSeq, showCursorSeq]
  · rw [htrace]
    simp [mouseOnSeq, mouseOffSeq, altOffSeq, showCursorSeq]
  · rw [htrace]
    simp [altOnSeq, mouseOffSeq, altOffSeq, showCursorSeq]
  · intro f
    rw [htrace]
    simp

/-- Witness for C1 at the mock backend with failing `enable_raw`. -/
theorem C1_witness :
    newWithSystem mockFailRaw =
      (.error 7, [.openTty, .enableRaw 100, .writeBytes 100 mouseOffSeq,
        .writeBytes 100 altOffSeq, .writeBytes 100 showCursorSeq, .closeTty 100]) :=
  (C1_enable_raw_failure mockFailRaw 100 7 rfl rfl).1

end Phosphor
